import Mathlib

/-!
Verification development for the kubelet-mesh node bootstrapper.

The repository source (src/main.go) contains the process entry point, the
stringset flag-collection type, and the mustHardwareAddr / mustHostname
helpers.  The gossip peer and its merge engine are constructed there
(newNodeBootstrapPeer) but their implementation is not part of the
repository; those parts are modelled from the design document, and each
such definition is marked with a doc comment starting with
"Modelled from the spec:".
-/

namespace KubeletMesh

/-! ## Byte sequences and their lexicographic order

Byte sequences (Go []byte) are modelled as List Nat.  bytesLt is the
strict lexicographic order used by bytes.Compare: a strict prefix is
smaller, otherwise the first differing byte decides. -/

def bytesLt : List Nat → List Nat → Bool
  | _, [] => false
  | [], _ :: _ => true
  | a :: as, b :: bs =>
    if a < b then true else if b < a then false else bytesLt as bs

theorem bytesLt_irrefl : ∀ a : List Nat, bytesLt a a = false := by
  intro a
  induction a with
  | nil => rfl
  | cons x xs ih => simp [bytesLt, ih]

theorem bytesLt_asymm : ∀ {a b : List Nat}, bytesLt a b = true → bytesLt b a = false := by
  intro a
  induction a with
  | nil =>
    intro b h
    cases b with
    | nil => simp [bytesLt] at h
    | cons y ys => rfl
  | cons x xs ih =>
    intro b h
    cases b with
    | nil => simp [bytesLt] at h
    | cons y ys =>
      simp only [bytesLt] at h ⊢
      by_cases hxy : x < y
      · have : ¬ y < x := by omega
        simp [hxy, this] at h ⊢
      · by_cases hyx : y < x
        · simp [hxy, hyx] at h
        · simp [hxy, hyx] at h ⊢
          exact ih h

theorem bytesLt_total_eq : ∀ {a b : List Nat},
    bytesLt a b = false → bytesLt b a = false → a = b := by
  intro a
  induction a with
  | nil =>
    intro b h₁ _
    cases b with
    | nil => rfl
    | cons y ys => simp [bytesLt] at h₁
  | cons x xs ih =>
    intro b h₁ h₂
    cases b with
    | nil => simp [bytesLt] at h₂
    | cons y ys =>
      simp only [bytesLt] at h₁ h₂
      by_cases hxy : x < y
      · simp [hxy] at h₁
      · by_cases hyx : y < x
        · simp [hxy, hyx] at h₂
        · have hx : x = y := by omega
          simp [hxy, hyx] at h₁ h₂
          subst hx
          rw [ih h₁ h₂]

theorem bytesLt_trans : ∀ {a b c : List Nat},
    bytesLt a b = true → bytesLt b c = true → bytesLt a c = true := by
  intro a
  induction a with
  | nil =>
    intro b c hab hbc
    cases c with
    | nil =>
      cases b with
      | nil => simp [bytesLt] at hab
      | cons y ys => simp [bytesLt] at hbc
    | cons z zs => rfl
  | cons x xs ih =>
    intro b c hab hbc
    cases b with
    | nil => simp [bytesLt] at hab
    | cons y ys =>
      cases c with
      | nil => simp [bytesLt] at hbc
      | cons z zs =>
        simp only [bytesLt] at hab hbc ⊢
        rcases Nat.lt_trichotomy x y with hxy | hxy | hxy
        · rcases Nat.lt_trichotomy y z with hyz | hyz | hyz
          · rw [if_pos (by omega : x < z)]
          · subst hyz
            rw [if_pos hxy]
          · rw [if_neg (by omega), if_pos hyz] at hbc
            simp at hbc
        · subst hxy
          rw [if_neg (by omega), if_neg (by omega)] at hab
          rcases Nat.lt_trichotomy x z with hyz | hyz | hyz
          · rw [if_pos hyz]
          · subst hyz
            rw [if_neg (by omega), if_neg (by omega)] at hbc ⊢
            exact ih hab hbc
          · rw [if_neg (by omega), if_pos hyz] at hbc
            simp at hbc
        · rw [if_neg (by omega), if_pos hxy] at hab
          simp at hab

/-! ## Certificate records and the merge engine -/

/-- Modelled from the spec: a CertificateRecord (section 3) is
notBefore (a timestamp, modelled as seconds since epoch), the
certificate signature bytes and the raw certificate bytes.  The
"absent" alternative is modelled with Option at the use sites. -/
structure CertificateRecord where
  notBefore : Int
  signature : List Nat
  rawBytes : List Nat
deriving DecidableEq, Repr

/-- Modelled from the spec: the strict comparison on present certificates
used by selectCertificate (sections 3 and 4.1): compare notBefore first,
break ties by the lexicographically greater signature byte sequence.  The
spec leaves the case of equal notBefore and equal signature unspecified;
it is resolved here by comparing the raw bytes lexicographically, the
choice forced by the semilattice laws the spec requires of merge
(sections 4.1 and 8). -/
def certLt (a b : CertificateRecord) : Bool :=
  if a.notBefore < b.notBefore then true
  else if b.notBefore < a.notBefore then false
  else if bytesLt a.signature b.signature then true
  else if bytesLt b.signature a.signature then false
  else bytesLt a.rawBytes b.rawBytes

theorem certLt_irrefl (a : CertificateRecord) : certLt a a = false := by
  simp [certLt, bytesLt_irrefl]

theorem certLt_asymm {a b : CertificateRecord} (h : certLt a b = true) :
    certLt b a = false := by
  simp only [certLt] at h ⊢
  by_cases h₁ : a.notBefore < b.notBefore
  · have h₂ : ¬ b.notBefore < a.notBefore := by omega
    simp [h₁, h₂]
  · by_cases h₂ : b.notBefore < a.notBefore
    · simp [h₁, h₂] at h
    · simp only [h₁, h₂, if_neg, if_false] at h ⊢
      by_cases h₃ : bytesLt a.signature b.signature = true
      · simp [h₃, bytesLt_asymm h₃]
      · by_cases h₄ : bytesLt b.signature a.signature = true
        · simp [h₃, h₄] at h
        · simp only [h₃, h₄] at h ⊢
          simp only [Bool.not_eq_true] at h₃ h₄
          simp [h₃, h₄, bytesLt_asymm] at h ⊢
          exact bytesLt_asymm h

theorem certLt_total_eq {a b : CertificateRecord}
    (h₁ : certLt a b = false) (h₂ : certLt b a = false) : a = b := by
  simp only [certLt] at h₁ h₂
  by_cases hn₁ : a.notBefore < b.notBefore
  · simp [hn₁] at h₁
  · by_cases hn₂ : b.notBefore < a.notBefore
    · simp [hn₂] at h₂
    · have hn : a.notBefore = b.notBefore := by omega
      simp only [hn₁, hn₂, if_neg, if_false] at h₁ h₂
      by_cases hs₁ : bytesLt a.signature b.signature = true
      · simp [hs₁] at h₁
      · by_cases hs₂ : bytesLt b.signature a.signature = true
        · simp [hs₂] at h₂
        · simp only [Bool.not_eq_true] at hs₁ hs₂
          simp only [hs₁, hs₂, if_false] at h₁ h₂
          have hs : a.signature = b.signature := bytesLt_total_eq hs₁ hs₂
          have hr : a.rawBytes = b.rawBytes := bytesLt_total_eq h₁ h₂
          cases a; cases b
          simp_all

theorem certLt_trans {a b c : CertificateRecord}
    (hab : certLt a b = true) (hbc : certLt b c = true) : certLt a c = true := by
  simp only [certLt] at hab hbc ⊢
  by_cases h₁ : a.notBefore < b.notBefore
  · by_cases h₂ : b.notBefore < c.notBefore
    · have : a.notBefore < c.notBefore := by omega
      simp [this]
    · by_cases h₃ : c.notBefore < b.notBefore
      · simp [h₂, h₃] at hbc
      · have hbceq : b.notBefore = c.notBefore := by omega
        have : a.notBefore < c.notBefore := by omega
        simp [this]
  · by_cases h₂ : b.notBefore < a.notBefore
    · simp [h₁, h₂] at hab
    · have habeq : a.notBefore = b.notBefore := by omega
      by_cases h₃ : b.notBefore < c.notBefore
      · have : a.notBefore < c.notBefore := by omega
        simp [this]
      · by_cases h₄ : c.notBefore < b.notBefore
        · simp [h₃, h₄] at hbc
        · have : ¬ a.notBefore < c.notBefore := by omega
          have h₅ : ¬ c.notBefore < a.notBefore := by omega
          simp only [h₁, h₂, if_neg, if_false] at hab
          simp only [h₃, h₄, if_neg, if_false] at hbc
          simp only [this, h₅, if_neg, if_false]
          by_cases hs₁ : bytesLt a.signature b.signature = true
          · by_cases hs₂ : bytesLt b.signature c.signature = true
            · simp [bytesLt_trans hs₁ hs₂]
            · by_cases hs₃ : bytesLt c.signature b.signature = true
              · simp [hs₂, hs₃] at hbc
              · simp only [Bool.not_eq_true] at hs₂ hs₃
                have : b.signature = c.signature := bytesLt_total_eq hs₂ hs₃
                rw [← this]
                simp [hs₁]
          · by_cases hs₂ : bytesLt b.signature a.signature = true
            · simp [hs₁, hs₂] at hab
            · simp only [Bool.not_eq_true] at hs₁ hs₂
              have hseq : a.signature = b.signature := bytesLt_total_eq hs₁ hs₂
              simp only [hs₁, hs₂, if_false] at hab
              rw [hseq]
              by_cases hs₃ : bytesLt b.signature c.signature = true
              · simp [hs₃]
              · by_cases hs₄ : bytesLt c.signature b.signature = true
                · simp [hs₃, hs₄] at hbc
                · simp only [Bool.not_eq_true] at hs₃ hs₄
                  simp only [hs₃, hs₄, if_false] at hbc ⊢
                  exact bytesLt_trans hab hbc

/-- Modelled from the spec: selectCertificate (section 4.1) returns the
absent value only if both inputs are absent; otherwise it returns the
operand that is not absent, or, if both are present, the one that is
greater under the certLt comparison (larger notBefore, ties broken by
the lexicographically greater signature). -/
def selectCertificate : Option CertificateRecord → Option CertificateRecord →
    Option CertificateRecord
  | none, none => none
  | some a, none => some a
  | none, some b => some b
  | some a, some b => if certLt a b then some b else some a

theorem selectCertificate_comm (x y : Option CertificateRecord) :
    selectCertificate x y = selectCertificate y x := by
  cases x with
  | none => cases y <;> rfl
  | some a =>
    cases y with
    | none => rfl
    | some b =>
      simp only [selectCertificate]
      by_cases h : certLt a b = true
      · simp [h, certLt_asymm h]
      · by_cases h₂ : certLt b a = true
        · simp [h, h₂]
        · simp only [Bool.not_eq_true] at h h₂
          simp [h, h₂, certLt_total_eq h h₂]

theorem selectCertificate_idem (x : Option CertificateRecord) :
    selectCertificate x x = x := by
  cases x with
  | none => rfl
  | some a => simp [selectCertificate, certLt_irrefl]

theorem selectCertificate_none_left (x : Option CertificateRecord) :
    selectCertificate none x = x := by
  cases x <;> rfl

theorem selectCertificate_none_right (x : Option CertificateRecord) :
    selectCertificate x none = x := by
  cases x <;> rfl

theorem certLt_false_of_false_false {a b c : CertificateRecord}
    (hab : certLt a b = false) (hbc : certLt b c = false) : certLt a c = false := by
  by_cases hac : certLt a c = true
  · by_cases hba : certLt b a = true
    · have : certLt b c = true := certLt_trans hba hac
      rw [this] at hbc
      exact absurd hbc (by simp)
    · have hba2 : certLt b a = false := by
        rw [Bool.not_eq_true] at hba
        exact hba
      have : a = b := certLt_total_eq hab hba2
      subst this
      rw [hac] at hbc
      exact absurd hbc (by simp)
  · rw [Bool.not_eq_true] at hac
    exact hac

theorem selectCertificate_assoc (x y z : Option CertificateRecord) :
    selectCertificate (selectCertificate x y) z
      = selectCertificate x (selectCertificate y z) := by
  cases x with
  | none => rw [selectCertificate_none_left, selectCertificate_none_left]
  | some a =>
    cases y with
    | none => rw [selectCertificate_none_right, selectCertificate_none_left]
    | some b =>
      cases z with
      | none =>
        rw [selectCertificate_none_right, selectCertificate_none_right]
      | some c =>
        show selectCertificate (if certLt a b then some b else some a) (some c)
          = selectCertificate (some a) (if certLt b c then some c else some b)
        by_cases hab : certLt a b = true
        · by_cases hbc : certLt b c = true
          · rw [if_pos hab, if_pos hbc]
            show (if certLt b c then some c else some b)
              = (if certLt a c then some c else some a)
            rw [if_pos hbc, if_pos (certLt_trans hab hbc)]
          · rw [if_pos hab, if_neg hbc]
            show (if certLt b c then some c else some b)
              = (if certLt a b then some b else some a)
            rw [if_neg hbc, if_pos hab]
        · by_cases hbc : certLt b c = true
          · rw [if_neg hab, if_pos hbc]
          · rw [if_neg hab, if_neg hbc]
            show (if certLt a c then some c else some a)
              = (if certLt a b then some b else some a)
            rw [Bool.not_eq_true] at hab hbc
            have hac : certLt a c = false := certLt_false_of_false_false hab hbc
            rw [hac, hab]
            simp

/-! ## BootstrapState and merge -/

/-- Modelled from the spec: a BootstrapState (section 3) pairs the known
certificate (possibly absent) with the set of known apiserver endpoint
URL strings. -/
structure BootstrapState where
  certificate : Option CertificateRecord
  endpoints : Finset String
deriving DecidableEq

/-- Modelled from the spec: merge (section 4.1) selects the greater
certificate and takes the union of the endpoint sets. -/
def merge (a b : BootstrapState) : BootstrapState :=
  { certificate := selectCertificate a.certificate b.certificate
    endpoints := a.endpoints ∪ b.endpoints }

/-! ## The stringset type of src/main.go

A Go map from string to the empty struct.  keys is the list of map keys,
duplicate-free by construction of a map; its order models the arbitrary
map iteration order and carries no meaning. -/

structure stringset where
  keys : List String
  nodup : keys.Nodup

/-- Map insertion (src/main.go lines 127-130): store the empty struct
under the key value.  Inserting a key that is already present leaves the
map unchanged; the Go method always returns a nil error, so the model
returns the new set. -/
def stringset.Set (ss : stringset) (v : String) : stringset :=
  if h : v ∈ ss.keys then ss
  else ⟨v :: ss.keys, (List.nodup_cons).mpr ⟨h, ss.nodup⟩⟩

/-- Canonical extraction (src/main.go lines 136-143): copy the keys out
of the map and sort them ascending with sort.Strings. -/
def stringset.slice (ss : stringset) : List String :=
  List.insertionSort (· ≤ ·) ss.keys

/-- The String method (src/main.go lines 132-134): join the sorted slice
with commas.  Named string here because the Go name collides with the
Lean String type. -/
def stringset.string (ss : stringset) : String :=
  String.intercalate "," ss.slice

theorem stringset.slice_sorted (ss : stringset) :
    List.Sorted (· ≤ ·) ss.slice :=
  List.sorted_insertionSort (· ≤ ·) ss.keys

theorem stringset.slice_perm (ss : stringset) : List.Perm ss.slice ss.keys :=
  List.perm_insertionSort (· ≤ ·) ss.keys

theorem stringset.mem_slice (ss : stringset) (x : String) :
    x ∈ ss.slice ↔ x ∈ ss.keys :=
  (ss.slice_perm).mem_iff

theorem stringset.slice_nodup (ss : stringset) : ss.slice.Nodup :=
  ((ss.slice_perm).nodup_iff).mpr ss.nodup

theorem stringset.keys_perm_of_mem_iff (ss tt : stringset)
    (h : ∀ x, x ∈ ss.keys ↔ x ∈ tt.keys) : List.Perm ss.keys tt.keys :=
  List.perm_of_nodup_nodup_toFinset_eq ss.nodup tt.nodup
    (Finset.ext fun x => by simp only [List.mem_toFinset]; exact h x)

theorem stringset.slice_eq_of_mem_iff (ss tt : stringset)
    (h : ∀ x, x ∈ ss.keys ↔ x ∈ tt.keys) : ss.slice = tt.slice :=
  List.eq_of_perm_of_sorted
    ((ss.slice_perm).trans ((ss.keys_perm_of_mem_iff tt h).trans tt.slice_perm.symm))
    ss.slice_sorted tt.slice_sorted

/-! ## The bootstrapper main flow (src/main.go lines 24-123)

External calls are abstracted as environment functions; the observable
calls that main makes are recorded as a trace of effects. -/

/-- The RootCAPublicKey record that main populates from the parsed root
CA certificate and hands to newNodeBootstrapPeer.  The Go zero value has
NotBefore the zero time (modelled 0) and nil Signature and Bytes slices
(modelled []). -/
structure RootCAPublicKey where
  NotBefore : Int := 0
  Signature : List Nat := []
  Bytes : List Nat := []
deriving DecidableEq, Repr

/-- Environment abstracting the calls in the root CA block of main
(src/main.go lines 56-73): readFile models ioutil.ReadFile (none is a
read error, after which Go keeps a nil byte slice and continues);
pemDecode models pem.Decode (none is a nil returned block, some gives
the Bytes field of the block); parseCert models x509.ParseCertificate
(none is a parse error, after which cert is nil; some gives the
NotBefore and Signature fields of the certificate). -/
structure CertEnv where
  readFile : String → Option (List Nat)
  pemDecode : List Nat → Option (List Nat)
  parseCert : List Nat → Option (Int × List Nat)

/-- Outcome of the root CA block: either a populated RootCAPublicKey or
a nil-dereference panic. -/
inductive LoadOutcome where
  | ok (info : RootCAPublicKey)
  | nilPanic
deriving DecidableEq, Repr

/-- The root CA block of main (src/main.go lines 54-73).  certInfo
starts as the zero RootCAPublicKey and the block is skipped when the
root-ca flag is empty.  Otherwise: a failed ReadFile is only logged and
ca stays nil; pem.Decode returning a nil block makes certBlock.Bytes a
nil dereference; a failed ParseCertificate is only logged and
cert.NotBefore is then a nil dereference. -/
def setupCertInfo (rootCA : String) (env : CertEnv) : LoadOutcome :=
  if rootCA = "" then .ok {}
  else
    let ca := (env.readFile rootCA).getD []
    match env.pemDecode ca with
    | none => .nilPanic
    | some blockBytes =>
      match env.parseCert blockBytes with
      | none => .nilPanic
      | some nb => .ok { NotBefore := nb.1, Signature := nb.2, Bytes := blockBytes }

/-- The apiserver URL collection loop of main (src/main.go lines 86-93):
iterate the sorted slice of the apiserver flag values in order; a value
accepted by url.Parse appends its normalized String() form, a value that
fails to parse is only logged.  parseURL abstracts url.Parse followed by
the String method of the parsed URL. -/
def collectApiserverURLs (parseURL : String → Option String)
    (apiservers : stringset) : List String :=
  apiservers.slice.foldl
    (fun acc a =>
      match parseURL a with
      | some u => acc ++ [u]
      | none => acc) []

/-- Observable calls that main makes, in program order. -/
inductive Effect where
  | fatalExit
  | nilPanic
  | newRouter
  | newPeer (cert : RootCAPublicKey) (urls : List String)
  | newGossip (channel : String)
  | registerGossip
  | startRouter
  | connectPeers (peers : List String)
deriving DecidableEq, Repr

/-- Environment of main: flag values and the abstracted external calls.
splitHostPort models net.SplitHostPort, atoi models strconv.Atoi, and
peerNameFromString models mesh.PeerNameFromString (the peer name itself
is abstract and modelled as a Nat). -/
structure MainEnv where
  meshListen : String
  splitHostPort : String → Option (String × String)
  atoi : String → Option Int
  hwaddr : String
  peerNameFromString : String → Option Nat
  rootCA : String
  certEnv : CertEnv
  parseURL : String → Option String
  apiservers : stringset
  peers : stringset

/-- The effect trace of main (src/main.go lines 24-123) up to the final
blocking receive: parse the mesh listen address (logger.Fatalf on
failure), parse the peer name (Fatalf on failure), run the root CA block
(which may panic on a nil dereference), create the router, collect the
apiserver URLs, construct the bootstrap peer, create the gossip channel
named kubernetes-node-bootstrap-v0, register the peer on it, start the
router and initiate connections to the configured peers. -/
def mainEffects (env : MainEnv) : List Effect :=
  match env.splitHostPort env.meshListen with
  | none => [.fatalExit]
  | some hp =>
    match env.atoi hp.2 with
    | none => [.fatalExit]
    | some _ =>
      match env.peerNameFromString env.hwaddr with
      | none => [.fatalExit]
      | some _ =>
        match setupCertInfo env.rootCA env.certEnv with
        | .nilPanic => [.nilPanic]
        | .ok certInfo =>
          [.newRouter,
           .newPeer certInfo (collectApiserverURLs env.parseURL env.apiservers),
           .newGossip "kubernetes-node-bootstrap-v0",
           .registerGossip,
           .startRouter,
           .connectPeers env.peers.slice]

/-- mustHardwareAddr (src/main.go lines 145-156): ifaces is none when
net.Interfaces fails (Go panics, modelled as result none); otherwise it
is the list of HardwareAddr.String() values in enumeration order.  The
result is the first non-empty string; none models the final panic when
every interface has an empty hardware address string. -/
def mustHardwareAddr (ifaces : Option (List String)) : Option String :=
  match ifaces with
  | none => none
  | some l => l.find? (fun s => s != "")

/-! ## Helper lemmas -/

theorem stringset.mem_Set (ss : stringset) (v x : String) :
    x ∈ (ss.Set v).keys ↔ x = v ∨ x ∈ ss.keys := by
  unfold stringset.Set
  split
  · rename_i h
    constructor
    · exact fun hx => Or.inr hx
    · rintro (rfl | hx)
      · exact h
      · exact hx
  · simp [List.mem_cons]

theorem stringset.Set_eq_of_mem (ss : stringset) (v : String) (h : v ∈ ss.keys) :
    ss.Set v = ss := by
  unfold stringset.Set
  exact dif_pos h

theorem stringset.Set_keys_of_not_mem (ss : stringset) (v : String)
    (h : v ∉ ss.keys) : (ss.Set v).keys = v :: ss.keys := by
  unfold stringset.Set
  rw [dif_neg h]

theorem foldl_append_filterMap (p : String → Option String) :
    ∀ (l acc : List String),
      l.foldl (fun acc a =>
        match p a with
        | some u => acc ++ [u]
        | none => acc) acc
        = acc ++ l.filterMap p := by
  intro l
  induction l with
  | nil =>
    intro acc
    simp
  | cons a l ih =>
    intro acc
    rw [List.foldl_cons, List.filterMap_cons]
    cases hpa : p a with
    | none =>
      simp only [hpa]
      rw [ih]
    | some u =>
      simp only [hpa]
      rw [ih]
      simp

theorem collectApiserverURLs_eq_filterMap (p : String → Option String)
    (ss : stringset) : collectApiserverURLs p ss = ss.slice.filterMap p := by
  unfold collectApiserverURLs
  rw [foldl_append_filterMap]
  simp

theorem filterMap_orderedInsert_none (p : String → Option String) (v : String)
    (hv : p v = none) :
    ∀ l : List String,
      (List.orderedInsert (· ≤ ·) v l).filterMap p = l.filterMap p := by
  intro l
  induction l with
  | nil => simp [hv]
  | cons x xs ih =>
    simp only [List.orderedInsert]
    by_cases hvx : v ≤ x
    · rw [if_pos hvx]
      simp [List.filterMap_cons, hv]
    · rw [if_neg hvx]
      rw [List.filterMap_cons, List.filterMap_cons, ih]

theorem collectApiserverURLs_Set_none (p : String → Option String)
    (ss : stringset) (v : String) (hv : p v = none) :
    collectApiserverURLs p (ss.Set v) = collectApiserverURLs p ss := by
  rw [collectApiserverURLs_eq_filterMap, collectApiserverURLs_eq_filterMap]
  by_cases h : v ∈ ss.keys
  · rw [stringset.Set_eq_of_mem ss v h]
  · have hslice : (ss.Set v).slice = List.orderedInsert (· ≤ ·) v ss.slice := by
      unfold stringset.slice
      rw [stringset.Set_keys_of_not_mem ss v h]
      simp [List.insertionSort]
    rw [hslice, filterMap_orderedInsert_none p v hv]

/-- Recognizer for newGossip effects. -/
def Effect.isNewGossip : Effect → Bool
  | .newGossip _ => true
  | _ => false

/-- Recognizer for registerGossip effects. -/
def Effect.isRegisterGossip : Effect → Bool
  | .registerGossip => true
  | _ => false

/-- Sample certificate environment in which every external call fails. -/
def sampleCertEnv : CertEnv :=
  { readFile := fun _ => none
    pemDecode := fun _ => none
    parseCert := fun _ => none }

/-- Sample main environment with an empty root-ca flag. -/
def sampleEnv : MainEnv :=
  { meshListen := "0.0.0.0:6783"
    splitHostPort := fun s => if s = "0.0.0.0:6783" then some ("0.0.0.0", "6783") else none
    atoi := fun s => if s = "6783" then some 6783 else none
    hwaddr := "aa:bb"
    peerNameFromString := fun _ => some 1
    rootCA := ""
    certEnv := sampleCertEnv
    parseURL := fun s => if s = "a" then some "a2" else none
    apiservers := ⟨["a"], by decide⟩
    peers := ⟨[], by decide⟩ }

/-- Sample main environment with a non-empty root-ca flag whose file
read fails. -/
def sampleEnvCA : MainEnv :=
  { sampleEnv with rootCA := "ca.pem" }

/-! ## Claim theorems -/

/-- C1: the merge function over BootstrapState values is commutative,
associative and idempotent. -/
theorem merge_semilattice (a b c : BootstrapState) :
    merge a b = merge b a ∧
    merge (merge a b) c = merge a (merge b c) ∧
    merge a a = a := by
  refine ⟨?_, ?_, ?_⟩
  · simp only [merge]
    rw [selectCertificate_comm, Finset.union_comm]
  · simp only [merge]
    rw [selectCertificate_assoc, Finset.union_assoc]
  · cases a with
    | mk cert eps =>
      simp only [merge]
      rw [selectCertificate_idem, Finset.union_self]

/-- C2: selectCertificate returns absent only if both inputs are absent,
otherwise the operand that is not absent; with both present it returns
the one with the larger notBefore, with equal notBefore values tie-broken
by the lexicographically greater signature byte sequence, and the result
does not depend on the argument order. -/
theorem selectCertificate_spec (x y : Option CertificateRecord)
    (a b : CertificateRecord) :
    (selectCertificate x y = none ↔ x = none ∧ y = none) ∧
    selectCertificate (some a) none = some a ∧
    selectCertificate none (some b) = some b ∧
    (b.notBefore < a.notBefore → selectCertificate (some a) (some b) = some a) ∧
    (a.notBefore < b.notBefore → selectCertificate (some a) (some b) = some b) ∧
    (a.notBefore = b.notBefore → bytesLt b.signature a.signature = true →
      selectCertificate (some a) (some b) = some a) ∧
    selectCertificate x y = selectCertificate y x := by
  refine ⟨?_, rfl, rfl, ?_, ?_, ?_, selectCertificate_comm x y⟩
  · cases x with
    | none =>
      cases y with
      | none => simp [selectCertificate]
      | some b => simp [selectCertificate]
    | some a =>
      cases y with
      | none => simp [selectCertificate]
      | some b =>
        show (if certLt a b then some b else some a) = none ↔ _
        by_cases h : certLt a b = true
        · simp [h]
        · simp [h]
  · intro hlt
    show (if certLt a b then some b else some a) = some a
    have : certLt a b = false := by
      unfold certLt
      rw [if_neg (by omega), if_pos hlt]
    rw [this]
    simp
  · intro hlt
    show (if certLt a b then some b else some a) = some b
    have : certLt a b = true := by
      unfold certLt
      rw [if_pos hlt]
    rw [this]
    simp
  · intro heq hsig
    show (if certLt a b then some b else some a) = some a
    have : certLt a b = false := by
      unfold certLt
      rw [if_neg (by omega), if_neg (by omega),
        if_neg (by rw [bytesLt_asymm hsig]; simp), if_pos hsig]
    rw [this]
    simp

/-- Witness for C2 at concrete certificates. -/
theorem selectCertificate_spec_witness :
    selectCertificate (some ⟨10, [1], [0]⟩) (some ⟨5, [2], [0]⟩) = some ⟨10, [1], [0]⟩ ∧
    selectCertificate (some ⟨5, [2], [0]⟩) (some ⟨10, [1], [0]⟩) = some ⟨10, [1], [0]⟩ ∧
    selectCertificate (some ⟨7, [3], []⟩) (some ⟨7, [2], []⟩) = some ⟨7, [3], []⟩ :=
  ⟨(selectCertificate_spec (some ⟨10, [1], [0]⟩) (some ⟨5, [2], [0]⟩)
      ⟨10, [1], [0]⟩ ⟨5, [2], [0]⟩).2.2.2.1 (by decide),
   (selectCertificate_spec (some ⟨5, [2], [0]⟩) (some ⟨10, [1], [0]⟩)
      ⟨5, [2], [0]⟩ ⟨10, [1], [0]⟩).2.2.2.2.1 (by decide),
   (selectCertificate_spec (some ⟨7, [3], []⟩) (some ⟨7, [2], []⟩)
      ⟨7, [3], []⟩ ⟨7, [2], []⟩).2.2.2.2.2.1 (by decide) (by decide)⟩

/-- C3: slice is sorted ascending, contains each member of the set
exactly once, and two stringsets that are equal as sets have identical
slices and identical String output. -/
theorem stringset.slice_canonical (ss tt : stringset)
    (h : ∀ x, x ∈ ss.keys ↔ x ∈ tt.keys) :
    List.Sorted (· ≤ ·) ss.slice ∧
    (∀ s, ss.slice.count s = if s ∈ ss.keys then 1 else 0) ∧
    ss.slice = tt.slice ∧
    ss.string = tt.string := by
  refine ⟨ss.slice_sorted, ?_, ss.slice_eq_of_mem_iff tt h, ?_⟩
  · intro s
    by_cases hs : s ∈ ss.keys
    · rw [if_pos hs]
      exact List.count_eq_one_of_mem ss.slice_nodup ((ss.mem_slice s).mpr hs)
    · rw [if_neg hs]
      exact List.count_eq_zero.mpr (fun hc => hs ((ss.mem_slice s).mp hc))
  · unfold stringset.string
    rw [ss.slice_eq_of_mem_iff tt h]

/-- Witness for C3: two listings of the same two-element set have the
same sorted slice. -/
theorem stringset.slice_canonical_witness :
    (⟨["b", "a"], by decide⟩ : stringset).slice
      = (⟨["a", "b"], by decide⟩ : stringset).slice :=
  (stringset.slice_canonical ⟨["b", "a"], by decide⟩ ⟨["a", "b"], by decide⟩
    (fun x => by simp [List.mem_cons, or_comm])).2.2.1

/-- C4: inserting the same value twice is the same as inserting it once,
and the insertion order of two values does not affect the resulting set
or its canonical slice. -/
theorem stringset.Set_idem_comm (ss : stringset) (u v : String) :
    (ss.Set v).Set v = ss.Set v ∧
    (∀ x, x ∈ ((ss.Set u).Set v).keys ↔ x ∈ ((ss.Set v).Set u).keys) ∧
    ((ss.Set u).Set v).slice = ((ss.Set v).Set u).slice := by
  have hmem : ∀ x, x ∈ ((ss.Set u).Set v).keys ↔ x ∈ ((ss.Set v).Set u).keys := by
    intro x
    simp only [stringset.mem_Set]
    tauto
  refine ⟨?_, hmem, ?_⟩
  · exact stringset.Set_eq_of_mem _ _ ((ss.mem_Set v v).mpr (Or.inl rfl))
  · exact stringset.slice_eq_of_mem_iff _ _ hmem

/-- C5: the endpoint set only grows: insertion preserves every element
already present, and merge never removes endpoints from either operand. -/
theorem stringset.grow_only :
    (∀ (ss : stringset) (v x : String), x ∈ ss.keys → x ∈ (ss.Set v).keys) ∧
    (∀ a b : BootstrapState,
      a.endpoints ⊆ (merge a b).endpoints ∧ b.endpoints ⊆ (merge a b).endpoints) := by
  constructor
  · intro ss v x hx
    exact (ss.mem_Set v x).mpr (Or.inr hx)
  · intro a b
    exact ⟨Finset.subset_union_left, Finset.subset_union_right⟩

/-- Witness for C5: an element present before an insertion is present
afterwards. -/
theorem stringset.grow_only_witness :
    "a" ∈ ((⟨["a"], by decide⟩ : stringset).Set "b").keys :=
  stringset.grow_only.1 ⟨["a"], by decide⟩ "b" "a" (by decide)

/-- C6: with an empty root-ca flag the bootstrapper hands the peer a
RootCAPublicKey whose NotBefore, Signature and Bytes fields are the zero
values, and the certificate loading path runs no external call: its
outcome is the same for every certificate environment. -/
theorem mainEffects_absent_certificate (env : MainEnv) (hp : String × String)
    (n : Int) (nm : Nat)
    (h₁ : env.splitHostPort env.meshListen = some hp)
    (h₂ : env.atoi hp.2 = some n)
    (h₃ : env.peerNameFromString env.hwaddr = some nm)
    (h₄ : env.rootCA = "") :
    (∀ ce : CertEnv, setupCertInfo env.rootCA ce
        = .ok { NotBefore := 0, Signature := [], Bytes := [] }) ∧
    mainEffects env
      = [.newRouter,
         .newPeer { NotBefore := 0, Signature := [], Bytes := [] }
           (collectApiserverURLs env.parseURL env.apiservers),
         .newGossip "kubernetes-node-bootstrap-v0",
         .registerGossip,
         .startRouter,
         .connectPeers env.peers.slice] := by
  have hc : ∀ ce : CertEnv, setupCertInfo env.rootCA ce
      = .ok { NotBefore := 0, Signature := [], Bytes := [] } := by
    intro ce
    rw [h₄]
    rfl
  refine ⟨hc, ?_⟩
  simp only [mainEffects, h₁, h₂, h₃, hc env.certEnv]

/-- Witness for C6 at a concrete environment. -/
theorem mainEffects_absent_certificate_witness :
    mainEffects sampleEnv
      = [.newRouter,
         .newPeer { NotBefore := 0, Signature := [], Bytes := [] } ["a2"],
         .newGossip "kubernetes-node-bootstrap-v0",
         .registerGossip,
         .startRouter,
         .connectPeers []] := by
  rw [(mainEffects_absent_certificate sampleEnv ("0.0.0.0", "6783") 6783 1
    rfl rfl rfl rfl).2]
  decide

/-- C7: the collected apiserver URL list is exactly the normalized forms
of the flag values accepted by url.Parse, taken in the sorted
deduplicated order of slice, and a value that fails to parse is omitted
without affecting the others. -/
theorem collectApiserverURLs_spec (p : String → Option String) (ss : stringset)
    (v : String) (hv : p v = none) :
    collectApiserverURLs p ss = ss.slice.filterMap p ∧
    (∀ y, y ∈ collectApiserverURLs p ss ↔ ∃ x, x ∈ ss.keys ∧ p x = some y) ∧
    collectApiserverURLs p (ss.Set v) = collectApiserverURLs p ss := by
  refine ⟨collectApiserverURLs_eq_filterMap p ss, ?_,
    collectApiserverURLs_Set_none p ss v hv⟩
  intro y
  rw [collectApiserverURLs_eq_filterMap, List.mem_filterMap]
  constructor
  · rintro ⟨x, hx, hpx⟩
    exact ⟨x, (ss.mem_slice x).mp hx, hpx⟩
  · rintro ⟨x, hx, hpx⟩
    exact ⟨x, (ss.mem_slice x).mpr hx, hpx⟩

/-- Witness for C7: a value rejected by the URL parser does not change
the collected list. -/
theorem collectApiserverURLs_spec_witness :
    collectApiserverURLs (fun s => if s = "a" then some "a2" else none)
        ((⟨["b"], by decide⟩ : stringset).Set "c")
      = collectApiserverURLs (fun s => if s = "a" then some "a2" else none)
        ⟨["b"], by decide⟩ :=
  (collectApiserverURLs_spec (fun s => if s = "a" then some "a2" else none)
    ⟨["b"], by decide⟩ "c" (by decide)).2.2

/-- C8: on the non-failing path main creates exactly one gossip handle,
on the channel named kubernetes-node-bootstrap-v0, and registers the
peer on it exactly once. -/
theorem mainEffects_single_gossip (env : MainEnv) (hp : String × String)
    (n : Int) (nm : Nat) (c : RootCAPublicKey)
    (h₁ : env.splitHostPort env.meshListen = some hp)
    (h₂ : env.atoi hp.2 = some n)
    (h₃ : env.peerNameFromString env.hwaddr = some nm)
    (h₄ : setupCertInfo env.rootCA env.certEnv = .ok c) :
    (mainEffects env).filter Effect.isNewGossip
      = [.newGossip "kubernetes-node-bootstrap-v0"] ∧
    (mainEffects env).filter Effect.isRegisterGossip = [.registerGossip] := by
  simp only [mainEffects, h₁, h₂, h₃, h₄]
  constructor <;> rfl

/-- Witness for C8 at a concrete environment. -/
theorem mainEffects_single_gossip_witness :
    (mainEffects sampleEnv).filter Effect.isNewGossip
      = [.newGossip "kubernetes-node-bootstrap-v0"] ∧
    (mainEffects sampleEnv).filter Effect.isRegisterGossip = [.registerGossip] :=
  mainEffects_single_gossip sampleEnv ("0.0.0.0", "6783") 6783 1
    { NotBefore := 0, Signature := [], Bytes := [] } rfl rfl rfl rfl

/-- C9: with a non-empty root-ca flag, a failure anywhere in the loading
path (unreadable file, after which pem.Decode sees an empty input; no
PEM block in the content; or a failed X.509 parse) is only logged and
execution reaches a nil dereference, so the run panics instead of
proceeding with an absent certificate or exiting cleanly. -/
theorem setupCertInfo_failure_panics (rootCA : String) (env : CertEnv)
    (menv : MainEnv) (hp : String × String) (n : Int) (nm : Nat)
    (h : rootCA ≠ "")
    (hfail : env.pemDecode ((env.readFile rootCA).getD []) = none ∨
      ∃ b, env.pemDecode ((env.readFile rootCA).getD []) = some b ∧
        env.parseCert b = none)
    (he₁ : menv.rootCA = rootCA) (he₂ : menv.certEnv = env)
    (h₁ : menv.splitHostPort menv.meshListen = some hp)
    (h₂ : menv.atoi hp.2 = some n)
    (h₃ : menv.peerNameFromString menv.hwaddr = some nm) :
    setupCertInfo rootCA env = .nilPanic ∧ mainEffects menv = [.nilPanic] := by
  have hpanic : setupCertInfo rootCA env = .nilPanic := by
    unfold setupCertInfo
    rw [if_neg h]
    rcases hfail with hdec | ⟨b, hdec, hparse⟩
    · simp only [hdec]
    · simp only [hdec, hparse]
  refine ⟨hpanic, ?_⟩
  simp only [mainEffects, h₁, h₂, h₃, he₁, he₂, hpanic]

/-- Witness for C9: an unreadable root CA file ends in a nil-dereference
panic. -/
theorem setupCertInfo_failure_panics_witness :
    setupCertInfo "ca.pem" sampleCertEnv = .nilPanic ∧
    mainEffects sampleEnvCA = [.nilPanic] :=
  setupCertInfo_failure_panics "ca.pem" sampleCertEnv sampleEnvCA
    ("0.0.0.0", "6783") 6783 1 (by decide) (Or.inl rfl) rfl rfl rfl rfl rfl

theorem find?_append_first (s : String) (hs : s ≠ "") :
    ∀ l₁ : List String, (∀ x ∈ l₁, x = "") → ∀ l₂ : List String,
      (l₁ ++ s :: l₂).find? (fun t => t != "") = some s := by
  intro l₁
  induction l₁ with
  | nil =>
    intro _ l₂
    simp only [List.nil_append]
    exact List.find?_cons_of_pos _ (by simp [hs])
  | cons x xs ih =>
    intro hpre l₂
    have hx : x = "" := hpre x (List.mem_cons_self x xs)
    rw [List.cons_append, List.find?_cons_of_neg _ (by simp [hx])]
    exact ih (fun y hy => hpre y (List.mem_cons_of_mem x hy)) l₂

/-- C10: mustHardwareAddr returns the address string of the first
interface whose hardware address is non-empty, and signals a panic
(modelled none) when interface enumeration fails or when no interface
has a non-empty address; being a function of the enumerated list, it is
deterministic for a fixed interface list. -/
theorem mustHardwareAddr_spec (l l₁ l₂ : List String) (s : String)
    (hempty : ∀ x ∈ l, x = "") (hs : s ≠ "") (hpre : ∀ x ∈ l₁, x = "") :
    mustHardwareAddr none = none ∧
    mustHardwareAddr (some l) = none ∧
    mustHardwareAddr (some (l₁ ++ s :: l₂)) = some s := by
  refine ⟨rfl, ?_, ?_⟩
  · show l.find? (fun t => t != "") = none
    rw [List.find?_eq_none]
    intro x hx
    rw [hempty x hx]
    simp
  · exact find?_append_first s hs l₁ hpre l₂

/-- Witness for C10: the first non-empty hardware address is returned. -/
theorem mustHardwareAddr_spec_witness :
    mustHardwareAddr (some ["", "aa:bb", ""]) = some "aa:bb" :=
  (mustHardwareAddr_spec ["", ""] [""] [""] "aa:bb"
    (by decide) (by decide) (by decide)).2.2

end KubeletMesh
